import Mathlib

/-!
Verification of the competitions notification scheduling engine
(`src/klavotools/background/competitions.js`).

The JavaScript module is shallowly embedded: machine state (the active
competition hash, the configuration fields, the set of live deferred
notifications) is passed explicitly, JavaScript exceptions become
`Except`, and the host clock (`Date.now()`) is a parameter `now` in
milliseconds.
-/

namespace Klavotools

/--
A JavaScript value passed as a competition `beginTime`.

* `str parsed` — a string; `parsed` is the millisecond timestamp produced
  by `new Date(s).getTime()`: `some ts` for a parseable (e.g. ISO 8601)
  string and `none` when the host date parser yields `NaN`.
* `num seconds` — a number, interpreted by the code as a unix timestamp
  in seconds.
* `null` — the JavaScript `null` value (distinguished because the code
  tests `beginTime !== null`).
* `other` — any other JavaScript value (`undefined`, objects, booleans…).
-/
inductive BeginVal
  | str (parsed : Option Int)
  | num (seconds : Int)
  | null
  | other
deriving DecidableEq, Repr

/-- The two exception kinds thrown by `getRemainingTime`:
`TypeError('Wrong argument type…')` and `Error('Server time delta is not set')`. -/
inductive JSError
  | typeError
  | stateError
deriving DecidableEq, Repr

/--
Lines 166–171 of the source: the local variable `beginTimestamp`.
The outer `Option` is JavaScript `undefined` (neither branch taken);
the inner `Option` distinguishes `NaN` (`none`) from an actual
millisecond number.
-/
def toBeginTimestamp : BeginVal → Option (Option Int)
  | .str parsed => some parsed
  | .num n => some (some (n * 1000))
  | _ => none

/--
`Competitions.prototype.getRemainingTime` (lines 165–183).
`timeCorrection` is `this._timeCorrection` (`none` models the initial
`null` / any non-number), `now` is `Date.now()` in milliseconds.
For a positive millisecond difference `remaining`, JavaScript
`Math.round(remaining / 1000)` equals `(remaining + 500) / 1000`
(the division on `Int` is floor-like here since `remaining + 500 > 0`).
A `NaN` timestamp (unparseable string) fails the `remaining > 0` test
and falls through to the `0` branch.
-/
def getRemainingTime (timeCorrection : Option Int) (now : Int) (beginTime : BeginVal) :
    Except JSError Int :=
  match toBeginTimestamp beginTime with
  | none => .error .typeError
  | some parsed =>
    match timeCorrection with
    | none => .error .stateError
    | some corr =>
      match parsed with
      | none => .ok 0
      | some ts =>
        let remaining := ts - (now + corr)
        .ok (if 0 < remaining then (remaining + 500) / 1000 else 0)

/-- Options handed to `new DeferredNotification(title, {...})` (lines 122–126). -/
structure NotifOptions where
  title : String
  body : String
  icon : String
  displayTime : Option Int
deriving DecidableEq, Repr

/--
A live (scheduled or currently displayed) deferred notification.
`handle` identifies the host notification object, `eventId` is the
competition it was armed for, `showDelay` the argument of
`notification.show(showDelay)`.
-/
structure LiveNotif where
  handle : Nat
  eventId : Nat
  opts : NotifOptions
  showDelay : Int
deriving DecidableEq, Repr

/-- The host notification world: a fresh-handle counter and the list of
live deferred notifications, in creation order. -/
structure NotifWorld where
  nextHandle : Nat
  live : List LiveNotif
deriving DecidableEq, Repr

/-- `notification.revoke()`: the notification with this handle stops being
live (idempotent; the handle itself is not reused). -/
def revoke (h : Nat) (w : NotifWorld) : NotifWorld :=
  { w with live := w.live.filter (fun n => n.handle != h) }

/-- One entry of `this._hash`: a `CompetitionData` record together with the
`notification` field `_notify` may add (holding the armed handle). -/
structure Competition where
  id : Nat
  ratingValue : Int
  beginTime : BeginVal
  notification : Option Nat
deriving DecidableEq, Repr

/--
The `Competitions` instance state: the four configuration fields
(`this.rates`, `this.delay`, `this.displayTime`, `this.audio`),
`this._timeCorrection`, and `this._hash` as an association list keyed by
competition id.
-/
structure Engine where
  rates : List Int
  delay : Int
  displayTime : Int
  audio : Bool
  timeCorrection : Option Int
  hash : List (Nat × Competition)
deriving DecidableEq, Repr

/--
`Competitions.prototype._createNotification` + the trailing
`notification.show(showDelay)` (lines 108–155): computes `showDelay` and
the effective `displayTime`, creates a fresh deferred notification and
schedules it. Returns the fresh handle and the new notification world.
(The `onclick` and `before` closures carry no scheduling state; the
`before` hook's decision logic is modelled separately as `beforeHook`.)
-/
def createNotification (e : Engine) (competition : Competition) (remainingTime : Int)
    (w : NotifWorld) : Nat × NotifWorld :=
  let showDelay0 := remainingTime - e.delay
  let showDelay := if showDelay0 < 0 then 0 else showDelay0
  let displayTime0 := e.displayTime
  let displayTime :=
    if remainingTime - showDelay < displayTime0 then remainingTime - showDelay
    else displayTime0
  let opts : NotifOptions :=
    { title := "Соревнование"
      body := "Соревнование x" ++ toString competition.ratingValue ++ " начинается"
      icon := "res/comp_btn.png"
      displayTime := if 0 < displayTime then some displayTime else none }
  let handle := w.nextHandle
  (handle,
   { nextHandle := handle + 1
     live := w.live ++ [{ handle := handle, eventId := competition.id, opts := opts,
                          showDelay := showDelay }] })

/--
`Competitions.prototype._notify` (lines 218–225), acting on the looked-up
competition record: computes the remaining time (which may throw) and, if
`this.delay > 0 && remainingTime > 0 && !!~this.rates.indexOf(ratingValue)`,
creates a notification and stores its handle on the record.
-/
def notifyStep (e : Engine) (now : Int) (competition : Competition) (w : NotifWorld) :
    Except JSError (Competition × NotifWorld) :=
  match getRemainingTime e.timeCorrection now competition.beginTime with
  | .error err => .error err
  | .ok remainingTime =>
    if 0 < e.delay ∧ 0 < remainingTime ∧ competition.ratingValue ∈ e.rates then
      let hw := createNotification e competition remainingTime w
      .ok ({ competition with notification := some hw.1 }, hw.2)
    else
      .ok (competition, w)

/-- The `if (competition.notification) { competition.notification.revoke(); }`
step shared by `_updateNotifications` and `_clearAll`. -/
def revokeStored (competition : Competition) (w : NotifWorld) : NotifWorld :=
  match competition.notification with
  | some h => revoke h w
  | none => w

/--
The loop body of `Competitions.prototype._updateNotifications`
(lines 89–99) over the hash entries, threading the notification world.
Besides the final entry list and world it returns the trace of
intermediate worlds (after each revoke and after each re-arm), used to
state the "at no moment two armed notifications per id" invariant.
-/
def updateEntries (e : Engine) (now : Int) :
    List (Nat × Competition) → NotifWorld →
    Except JSError (List (Nat × Competition) × NotifWorld × List NotifWorld)
  | [], w => .ok ([], w, [])
  | (id, competition) :: rest, w =>
    let w1 := revokeStored competition w
    match (if competition.beginTime ≠ BeginVal.null
           then notifyStep e now competition w1
           else .ok (competition, w1)) with
    | .error err => .error err
    | .ok cw =>
      match updateEntries e now rest cw.2 with
      | .error err => .error err
      | .ok rwt => .ok ((id, cw.1) :: rwt.1, rwt.2.1, w1 :: cw.2 :: rwt.2.2)

/-- `Competitions.prototype._updateNotifications` on the whole engine state. -/
def updateNotifications (e : Engine) (now : Int) (w : NotifWorld) :
    Except JSError (Engine × NotifWorld × List NotifWorld) :=
  match updateEntries e now e.hash w with
  | .error err => .error err
  | .ok hwt => .ok ({ e with hash := hwt.1 }, hwt.2.1, hwt.2.2)

/-- A `param.delay` / `param.displayTime` field of the object passed to
`setParams`: absent (`undefined`), present but not a number, or a number. -/
inductive JParam
  | undef
  | nonNumber
  | number (n : Int)
deriving DecidableEq, Repr

/--
The object passed to `Competitions.prototype.setParams`.
`rates = none` models a falsy `param.rates` (absent / `null`); any array
is truthy, including `[]`. `audio = none` models `param.audio` loosely
equal to `undefined` (i.e. `undefined` or `null`); `audio = some b`
models any other value, with `b` its truthiness (`!!param.audio`).
-/
structure SetParam where
  rates : Option (List Int)
  audio : Option Bool
  displayTime : JParam
  delay : JParam
deriving DecidableEq, Repr

/-- A value written to `kango.storage.setItem`. -/
inductive StoredVal
  | num (n : Int)
  | list (l : List Int)
  | bool (b : Bool)
deriving DecidableEq, Repr

/--
Lines 66–80 of `setParams`: merge the supplied parameters into the
configuration fields and persist all four values. Returns the updated
engine together with the list of storage writes, in source order.
-/
def setParamsFields (e : Engine) (p : SetParam) : Engine × List (String × StoredVal) :=
  let rates := match p.rates with
    | some r => r
    | none => e.rates
  let audio := match p.audio with
    | some b => b
    | none => e.audio
  let displayTime := match p.displayTime with
    | .number n => if 0 ≤ n then n else e.displayTime
    | _ => e.displayTime
  let delay := match p.delay with
    | .number n => if 0 ≤ n then n else e.delay
    | _ => e.delay
  ({ e with rates := rates, audio := audio, displayTime := displayTime, delay := delay },
   [("competition_delay", StoredVal.num delay),
    ("competition_rates", StoredVal.list rates),
    ("competition_displayTime", StoredVal.num displayTime),
    ("competition_audio", StoredVal.bool audio)])

/--
`Competitions.prototype.setParams` (lines 65–83): update the configuration,
persist it, then run `_updateNotifications`. The storage writes are
returned outside the `Except` because in the source they happen before
`_updateNotifications` and thus before any exception it may throw.
-/
def setParams (e : Engine) (p : SetParam) (now : Int) (w : NotifWorld) :
    List (String × StoredVal) × Except JSError (Engine × NotifWorld × List NotifWorld) :=
  let ew := setParamsFields e p
  (ew.2, updateNotifications ew.1 now w)

/--
The loop of `Competitions.prototype._clearStarted` (lines 189–196) over
the hash entries: delete every entry whose `beginTime !== null` and whose
`getRemainingTime(beginTime) === 0` (the call may throw).
-/
def clearStartedEntries (timeCorrection : Option Int) (now : Int) :
    List (Nat × Competition) → Except JSError (List (Nat × Competition))
  | [] => .ok []
  | (id, competition) :: rest =>
    if competition.beginTime = BeginVal.null then
      match clearStartedEntries timeCorrection now rest with
      | .error err => .error err
      | .ok rest' => .ok ((id, competition) :: rest')
    else
      match getRemainingTime timeCorrection now competition.beginTime with
      | .error err => .error err
      | .ok rt =>
        if rt = 0 then clearStartedEntries timeCorrection now rest
        else
          match clearStartedEntries timeCorrection now rest with
          | .error err => .error err
          | .ok rest' => .ok ((id, competition) :: rest')

/-- `Competitions.prototype._clearStarted` on the whole state. It never
touches the notification world (no `revoke` call in its body). -/
def clearStarted (e : Engine) (now : Int) (w : NotifWorld) :
    Except JSError (Engine × NotifWorld) :=
  match clearStartedEntries e.timeCorrection now e.hash with
  | .error err => .error err
  | .ok hash' => .ok ({ e with hash := hash' }, w)

/-- The loop of `Competitions.prototype._clearAll` (lines 202–210):
revoke each stored notification and delete every entry. -/
def clearAllEntries : List (Nat × Competition) → NotifWorld → NotifWorld
  | [], w => w
  | (_, competition) :: rest, w => clearAllEntries rest (revokeStored competition w)

/-- `Competitions.prototype._clearAll`: afterwards the hash is empty. -/
def clearAll (e : Engine) (w : NotifWorld) : Engine × NotifWorld :=
  ({ e with hash := [] }, clearAllEntries e.hash w)

/--
`Competitions.prototype.teardown` (lines 230–233). The call to the base
`MutableModule.prototype.teardown` only removes message listeners (that
collaborator is outside this module's source); the engine-visible effect
is `_clearAll`.
-/
def teardown (e : Engine) (w : NotifWorld) : Engine × NotifWorld :=
  clearAll e w

/-- An open browser tab as seen by the `notification.before` closure:
`hasTab` is the truthiness of `tab._tab`, `matchesEvent` the result of
`tab.getUrl().search(new RegExp('klavogonki.ru/g/\\?gmid=' + id + '$')) !== -1`. -/
structure TabInfo where
  hasTab : Bool
  matchesEvent : Bool
deriving DecidableEq, Repr

/-- What the `before` hook does once the tab query returns: the boolean the
promise resolves with, and whether the audio cue was played. -/
structure BeforeResult where
  resolved : Bool
  audioPlayed : Bool
deriving DecidableEq, Repr

/--
The `notification.before` closure (lines 136–150), after the asynchronous
`kango.browser.tabs.getAll` callback has delivered `tabs`. `audio` is
`this.audio` at the moment the hook fires (the closure is bound to the
`Competitions` instance, so it reads the current configuration).
`found` is `tabs.some(tab => tab._tab && tab.getUrl().search(re) !== -1)`;
the audio plays iff `!found && this.audio`; the promise resolves with
`!found`.
-/
def beforeHook (audio : Bool) (tabs : List TabInfo) : BeforeResult :=
  let found := tabs.any (fun tab => tab.hasTab && tab.matchesEvent)
  { resolved := !found, audioPlayed := !found && audio }

deriving instance DecidableEq for Except

/-! ## Invariants -/

/-- At any moment, no two distinct live notifications target the same
competition id. -/
abbrev atMostOnePer (live : List LiveNotif) : Prop :=
  ∀ n1 ∈ live, ∀ n2 ∈ live, n1.eventId = n2.eventId → n1 = n2

/--
Well-formedness of an engine state together with the notification world:
hash keys are unique and agree with the records' `id` fields; every live
notification is the one stored by its competition's record; a stored
handle that is live belongs to its own competition; live handles are
distinct and below the fresh-handle counter, as are stored handles.
-/
abbrev WF (e : Engine) (w : NotifWorld) : Prop :=
  (e.hash.map Prod.fst).Nodup ∧
  (∀ p ∈ e.hash, (Prod.snd p).id = Prod.fst p) ∧
  (∀ n ∈ w.live, ∃ p ∈ e.hash, Prod.fst p = n.eventId ∧
    (Prod.snd p).notification = some n.handle) ∧
  (∀ p ∈ e.hash, ∀ n ∈ w.live, (Prod.snd p).notification = some n.handle →
    n.eventId = Prod.fst p) ∧
  (w.live.map LiveNotif.handle).Nodup ∧
  (∀ n ∈ w.live, n.handle < w.nextHandle) ∧
  (∀ p ∈ e.hash, ∀ h, (Prod.snd p).notification = some h → h < w.nextHandle)

/--
Induction invariant for the `_updateNotifications` loop, relating the
entries still to be processed to the current notification world.
`liveStored` is restricted to live notifications whose event is among the
unprocessed entries; notifications created for already-processed entries
are covered by `amop` alone.
-/
structure Inv (entries : List (Nat × Competition)) (w : NotifWorld) : Prop where
  keysNodup : (entries.map Prod.fst).Nodup
  idMatch : ∀ p ∈ entries, (Prod.snd p).id = Prod.fst p
  amop : atMostOnePer w.live
  handlesNodup : (w.live.map LiveNotif.handle).Nodup
  liveLt : ∀ n ∈ w.live, n.handle < w.nextHandle
  storedLt : ∀ p ∈ entries, ∀ h, (Prod.snd p).notification = some h → h < w.nextHandle
  storedOwn : ∀ p ∈ entries, ∀ n ∈ w.live, (Prod.snd p).notification = some n.handle →
    n.eventId = Prod.fst p
  liveStored : ∀ n ∈ w.live, n.eventId ∈ entries.map Prod.fst →
    ∃ p ∈ entries, Prod.fst p = n.eventId ∧ (Prod.snd p).notification = some n.handle

/-- The entries `_clearStarted` keeps: `beginTime` null, or rounded
remaining time not 0. -/
def keepEntry (tc : Option Int) (now : Int) (p : Nat × Competition) : Bool :=
  ((Prod.snd p).beginTime == BeginVal.null) ||
    !(getRemainingTime tc now (Prod.snd p).beginTime == Except.ok 0)

/-- Concrete engine for the C3 witness: one active competition with an
armed notification (handle 0). -/
def reconcilEngine : Engine :=
  { rates := [3, 5], delay := 60, displayTime := 0, audio := false,
    timeCorrection := some 0,
    hash := [(1, { id := 1, ratingValue := 3, beginTime := BeginVal.num 100,
                   notification := some 0 })] }

/-- Concrete notification world for the C3 witness. -/
def reconcilWorld : NotifWorld :=
  { nextHandle := 1,
    live := [{ handle := 0, eventId := 1,
               opts := { title := "", body := "", icon := "", displayTime := none },
               showDelay := 40 }] }

/-- Concrete parameter object for the C3 witness: sets the lead time to 0. -/
def reconcilParam : SetParam :=
  { rates := none, audio := none, displayTime := JParam.undef,
    delay := JParam.number 0 }

/-- The result of `setParams reconcilEngine reconcilParam 0 reconcilWorld`. -/
def reconcilResult : Engine × NotifWorld × List NotifWorld :=
  ({ rates := [3, 5], delay := 0, displayTime := 0, audio := false,
     timeCorrection := some 0,
     hash := [(1, { id := 1, ratingValue := 3, beginTime := BeginVal.num 100,
                    notification := some 0 })] },
   { nextHandle := 1, live := [] },
   [{ nextHandle := 1, live := [] }, { nextHandle := 1, live := [] }])

/-- Concrete engine for the C4 witness: event 1 starts 100 s in the
future, event 2 has already started. -/
def pruneEngine : Engine :=
  { rates := [3, 5], delay := 60, displayTime := 0, audio := false,
    timeCorrection := some 0,
    hash := [(1, { id := 1, ratingValue := 3, beginTime := BeginVal.num 100,
                   notification := none }),
             (2, { id := 2, ratingValue := 5, beginTime := BeginVal.num 0,
                   notification := none })] }

/-- Concrete notification world for the C4 witness. -/
def pruneWorld : NotifWorld :=
  { nextHandle := 0, live := [] }

/-- The result of `clearStarted pruneEngine 0 pruneWorld`. -/
def pruneResult : Engine × NotifWorld :=
  ({ rates := [3, 5], delay := 60, displayTime := 0, audio := false,
     timeCorrection := some 0,
     hash := [(1, { id := 1, ratingValue := 3, beginTime := BeginVal.num 100,
                    notification := none })] },
   { nextHandle := 0, live := [] })

/-- Concrete engine for the C6 counterexample: one active competition
whose record holds the armed handle 2. -/
def staleEngine : Engine :=
  { rates := [3, 5], delay := 60, displayTime := 0, audio := false,
    timeCorrection := some 0,
    hash := [(4, { id := 4, ratingValue := 5, beginTime := BeginVal.num 250,
                   notification := some 2 })] }

/-- Concrete notification world for the C6 counterexample: handle 2 is
live for event 4. -/
def staleWorld : NotifWorld :=
  { nextHandle := 3,
    live := [{ handle := 2, eventId := 4,
               opts := { title := "", body := "", icon := "", displayTime := none },
               showDelay := 10 }] }

/-- Parameter object for the C6 counterexample: disables notifications by
setting the lead time to 0. -/
def staleParam : SetParam :=
  { rates := none, audio := none, displayTime := JParam.undef,
    delay := JParam.number 0 }

/-- The result of `setParams staleEngine staleParam 0 staleWorld`: the
notification is revoked, yet the record still points at handle 2. -/
def staleResult : Engine × NotifWorld × List NotifWorld :=
  ({ rates := [3, 5], delay := 0, displayTime := 0, audio := false,
     timeCorrection := some 0,
     hash := [(4, { id := 4, ratingValue := 5, beginTime := BeginVal.num 250,
                    notification := some 2 })] },
   { nextHandle := 3, live := [] },
   [{ nextHandle := 3, live := [] }, { nextHandle := 3, live := [] }])

end Klavotools

namespace Klavotools

/-! ## Helper lemmas -/

theorem nodup_map_eq {α β : Type} {l : List α} {f : α → β}
    (h : (l.map f).Nodup) {a b : α} (ha : a ∈ l) (hb : b ∈ l) (hf : f a = f b) :
    a = b := by
  rw [List.Nodup, List.pairwise_map] at h
  by_contra hne
  exact (h.forall (fun x y hxy => by simp_all [Ne, eq_comm]) ha hb hne) hf

theorem amop_of_subset {l1 l2 : List LiveNotif} (hsub : ∀ n ∈ l1, n ∈ l2)
    (h : atMostOnePer l2) : atMostOnePer l1 :=
  fun n1 h1 n2 h2 he => h n1 (hsub n1 h1) n2 (hsub n2 h2) he

theorem mem_revoke {n : LiveNotif} {h : Nat} {w : NotifWorld} :
    n ∈ (revoke h w).live ↔ n ∈ w.live ∧ n.handle ≠ h := by
  simp [revoke, List.mem_filter]

theorem revoke_nextHandle (h : Nat) (w : NotifWorld) :
    (revoke h w).nextHandle = w.nextHandle := rfl

theorem revokeStored_nextHandle (c : Competition) (w : NotifWorld) :
    (revokeStored c w).nextHandle = w.nextHandle := by
  cases hc : c.notification <;> simp [revokeStored, hc, revoke_nextHandle]

theorem mem_revokeStored_some {n : LiveNotif} {c : Competition} {w : NotifWorld}
    {h : Nat} (hc : c.notification = some h) (hm : n ∈ (revokeStored c w).live) :
    n ∈ w.live ∧ n.handle ≠ h := by
  simp only [revokeStored, hc] at hm
  exact mem_revoke.mp hm

theorem mem_revokeStored {n : LiveNotif} {c : Competition} {w : NotifWorld}
    (hm : n ∈ (revokeStored c w).live) : n ∈ w.live := by
  cases hc : c.notification with
  | none => simp only [revokeStored, hc] at hm; exact hm
  | some h => exact (mem_revokeStored_some hc hm).1

theorem revokeStored_live_sublist (c : Competition) (w : NotifWorld) :
    (revokeStored c w).live.Sublist w.live := by
  cases hc : c.notification with
  | none => simp [revokeStored, hc]
  | some h => simp only [revokeStored, hc, revoke]; exact List.filter_sublist _

end Klavotools

namespace Klavotools

/-! ## C1: remaining time formula -/

theorem round_eq_add500_div (r : Int) :
    round ((r : ℚ) / 1000) = (r + 500) / 1000 := by
  rw [round_eq]
  have h : (r : ℚ) / 1000 + 1 / 2 = ((r + 500 : ℤ) : ℚ) / ((1000 : ℕ) : ℚ) := by
    push_cast
    ring
  rw [h, Rat.floor_intCast_div_natCast]
  norm_num

/--
C1: for a parseable (e.g. ISO 8601) string start time and for a
unix-seconds numeric start time, with the clock correction established,
`getRemainingTime` returns `round((start - (now + correction)) / 1000)`
seconds when that millisecond difference is positive and `0` otherwise;
in every successful case the result is non-negative.
-/
theorem remainingTime_round_clamped (corr now ts n : Int) :
    getRemainingTime (some corr) now (BeginVal.str (some ts)) =
      .ok (if 0 < ts - (now + corr)
           then round ((ts - (now + corr) : ℚ) / 1000) else 0) ∧
    getRemainingTime (some corr) now (BeginVal.num n) =
      .ok (if 0 < n * 1000 - (now + corr)
           then round ((n * 1000 - (now + corr) : ℚ) / 1000) else 0) ∧
    (∀ tc bt r, getRemainingTime tc now bt = .ok r → 0 ≤ r) := by
  refine ⟨?_, ?_, ?_⟩
  · simp only [getRemainingTime, toBeginTimestamp]
    have hc : ((ts - (now + corr) : ℤ) : ℚ) = ((ts : ℚ) - ((now : ℚ) + (corr : ℚ))) := by
      push_cast
      ring
    rw [← hc, round_eq_add500_div]
  · simp only [getRemainingTime, toBeginTimestamp]
    have hc : ((n * 1000 - (now + corr) : ℤ) : ℚ) =
        ((n : ℚ) * 1000 - ((now : ℚ) + (corr : ℚ))) := by
      push_cast
      ring
    rw [← hc, round_eq_add500_div]
  · intro tc bt r h
    unfold getRemainingTime at h
    rcases bt with p | m | _ | _ <;> simp [toBeginTimestamp] at h <;>
      rcases tc with _ | c <;> simp at h
    · rcases p with _ | ts' <;> simp at h
      · omega
      · split at h
        · have hpos : (0 : Int) < ts' - (now + c) + 500 := by omega
          have := Int.ediv_nonneg (le_of_lt hpos) (by norm_num : (0:Int) ≤ 1000)
          omega
        · omega
    · split at h
      · have hpos : (0 : Int) < m * 1000 - (now + c) + 500 := by omega
        have := Int.ediv_nonneg (le_of_lt hpos) (by norm_num : (0:Int) ≤ 1000)
        omega
      · omega

/-- Witness for C1 at `corr = 100`, `now = 0`, `ts = 2300` (remaining
2200 ms) and the non-negativity part at start time `0` seconds. -/
theorem remainingTime_round_clamped_witness :
    getRemainingTime (some 100) 0 (BeginVal.str (some 2300)) =
      .ok (if 0 < (2300 : Int) - (0 + 100)
           then round (((2300 : Int) - (0 + 100) : ℚ) / 1000) else 0) ∧
    (0 : Int) ≤ 0 :=
  ⟨(remainingTime_round_clamped 100 0 2300 3).1,
   (remainingTime_round_clamped 100 0 2300 3).2.2 (some 100) (BeginVal.num 0) 0
     (by decide)⟩

/-! ## Reconciliation invariant machinery -/

theorem WF_amop (e : Engine) (w : NotifWorld) (h : WF e w) : atMostOnePer w.live := by
  obtain ⟨hk, _, hls, _, hhn, _, _⟩ := h
  intro n1 h1 n2 h2 he
  obtain ⟨p1, hp1, hk1, hn1⟩ := hls n1 h1
  obtain ⟨p2, hp2, hk2, hn2⟩ := hls n2 h2
  have hp : p1 = p2 := nodup_map_eq hk hp1 hp2 (by rw [hk1, hk2, he])
  subst hp
  rw [hn1] at hn2
  exact nodup_map_eq hhn h1 h2 (Option.some.inj hn2)

theorem WF_inv (e : Engine) (w : NotifWorld) (h : WF e w) : Inv e.hash w := by
  have hamop := WF_amop e w h
  obtain ⟨hk, hid, hls, hso, hhn, hlt, hst⟩ := h
  exact ⟨hk, hid, hamop, hhn, hlt, hst, hso, fun n hn _ => hls n hn⟩

theorem no_live_for_head {id : Nat} {competition : Competition}
    {rest : List (Nat × Competition)} {w : NotifWorld}
    (hinv : Inv ((id, competition) :: rest) w) :
    ∀ n ∈ (revokeStored competition w).live, n.eventId ≠ id := by
  intro n hn he
  have hnw : n ∈ w.live := mem_revokeStored hn
  have hmem : n.eventId ∈ ((id, competition) :: rest).map Prod.fst := by
    simp [he]
  obtain ⟨p, hp, hkey, hst⟩ := hinv.liveStored n hnw hmem
  have hph : p = (id, competition) :=
    nodup_map_eq hinv.keysNodup hp (List.mem_cons_self _ _) (by rw [hkey, he])
  rw [hph] at hst
  cases hc : competition.notification with
  | none =>
    rw [hc] at hst
    cases hst
  | some h =>
    rw [hc] at hst
    exact (mem_revokeStored_some hc hn).2 (Option.some.inj hst).symm

theorem Inv_revoke_rest {id : Nat} {competition : Competition}
    {rest : List (Nat × Competition)} {w : NotifWorld}
    (hinv : Inv ((id, competition) :: rest) w) :
    Inv rest (revokeStored competition w) := by
  have hsub := revokeStored_live_sublist competition w
  have hsubm : ∀ n ∈ (revokeStored competition w).live, n ∈ w.live :=
    fun n hn => mem_revokeStored hn
  have hk0 : (id :: rest.map Prod.fst).Nodup := by
    have hkc := hinv.keysNodup
    rwa [List.map_cons] at hkc
  have hk := List.nodup_cons.mp hk0
  refine ⟨hk.2, ?_, amop_of_subset hsubm hinv.amop,
    (hsub.map LiveNotif.handle).nodup hinv.handlesNodup, ?_, ?_, ?_, ?_⟩
  · intro p hp
    exact hinv.idMatch p (List.mem_cons_of_mem _ hp)
  · intro n hn
    rw [revokeStored_nextHandle]
    exact hinv.liveLt n (hsubm n hn)
  · intro p hp h hh
    rw [revokeStored_nextHandle]
    exact hinv.storedLt p (List.mem_cons_of_mem _ hp) h hh
  · intro p hp n hn hst
    exact hinv.storedOwn p (List.mem_cons_of_mem _ hp) n (hsubm n hn) hst
  · intro n hn hmem
    have hnw := hsubm n hn
    have hmem' : n.eventId ∈ ((id, competition) :: rest).map Prod.fst := by
      simp only [List.map_cons, List.mem_cons]
      exact Or.inr hmem
    obtain ⟨p, hp, hkey, hst⟩ := hinv.liveStored n hnw hmem'
    rcases List.mem_cons.mp hp with hph | hpr
    · exfalso
      have hne : n.eventId = id := by
        rw [← hkey, hph]
      rw [hne] at hmem
      exact hk.1 hmem
    · exact ⟨p, hpr, hkey, hst⟩

theorem Inv_arm_rest {id : Nat} {competition : Competition}
    {rest : List (Nat × Competition)} {w : NotifWorld} (nn : LiveNotif)
    (hinv : Inv ((id, competition) :: rest) w)
    (hid : nn.eventId = id) (hh : nn.handle = w.nextHandle) :
    Inv rest { nextHandle := w.nextHandle + 1,
               live := (revokeStored competition w).live ++ [nn] } := by
  have hrest := Inv_revoke_rest hinv
  have hnohead := no_live_for_head hinv
  have hk0 : (id :: rest.map Prod.fst).Nodup := by
    have hkc := hinv.keysNodup
    rwa [List.map_cons] at hkc
  have hk := List.nodup_cons.mp hk0
  refine ⟨hrest.keysNodup, hrest.idMatch, ?_, ?_, ?_, ?_, ?_, ?_⟩
  · intro n1 h1 n2 h2 he
    rcases List.mem_append.mp h1 with h1' | h1' <;>
      rcases List.mem_append.mp h2 with h2' | h2'
    · exact hrest.amop n1 h1' n2 h2' he
    · exfalso
      have h2e : n2 = nn := by simpa using h2'
      exact hnohead n1 h1' (by rw [he, h2e, hid])
    · exfalso
      have h1e : n1 = nn := by simpa using h1'
      exact hnohead n2 h2' (by rw [← he, h1e, hid])
    · have h1e : n1 = nn := by simpa using h1'
      have h2e : n2 = nn := by simpa using h2'
      rw [h1e, h2e]
  · rw [List.map_append]
    refine List.Nodup.append hrest.handlesNodup (by simp) ?_
    intro a ha hb
    simp only [List.map_cons, List.map_nil, List.mem_singleton] at hb
    obtain ⟨m, hm, hma⟩ := List.mem_map.mp ha
    have := hrest.liveLt m hm
    rw [revokeStored_nextHandle] at this
    rw [hb, hh] at hma
    omega
  · intro n hn
    rcases List.mem_append.mp hn with h' | h'
    · have := hrest.liveLt n h'
      rw [revokeStored_nextHandle] at this
      simp only
      omega
    · have h'e : n = nn := by simpa using h'
      rw [h'e, hh]
      simp only
      omega
  · intro p hp h hnot
    have := hrest.storedLt p hp h hnot
    rw [revokeStored_nextHandle] at this
    simp only
    omega
  · intro p hp n hn hst
    rcases List.mem_append.mp hn with h' | h'
    · exact hrest.storedOwn p hp n h' hst
    · exfalso
      have h'e : n = nn := by simpa using h'
      rw [h'e, hh] at hst
      have := hrest.storedLt p hp w.nextHandle hst
      rw [revokeStored_nextHandle] at this
      omega
  · intro n hn hmem
    rcases List.mem_append.mp hn with h' | h'
    · exact hrest.liveStored n h' hmem
    · exfalso
      have h'e : n = nn := by simpa using h'
      rw [h'e, hid] at hmem
      exact hk.1 hmem

/--
Shape of a successful `_notify` call: either nothing happens, or a fresh
notification is appended and its handle stored on the record.
-/
theorem notifyStep_shape (e : Engine) (now : Int) (competition : Competition)
    (w : NotifWorld) (cw : Competition × NotifWorld)
    (h : notifyStep e now competition w = .ok cw) :
    cw = (competition, w) ∨
    ∃ nn : LiveNotif, nn.eventId = competition.id ∧ nn.handle = w.nextHandle ∧
      cw.1 = { competition with notification := some w.nextHandle } ∧
      cw.2 = { nextHandle := w.nextHandle + 1, live := w.live ++ [nn] } := by
  unfold notifyStep at h
  cases hrt : getRemainingTime e.timeCorrection now competition.beginTime with
  | error err =>
    rw [hrt] at h
    simp at h
  | ok rt =>
    rw [hrt] at h
    simp only at h
    split at h
    · simp only [Except.ok.injEq] at h
      subst h
      exact Or.inr ⟨_, rfl, rfl, rfl, rfl⟩
    · simp only [Except.ok.injEq] at h
      subst h
      exact Or.inl rfl

theorem updateEntries_amop (e : Engine) (now : Int) :
    ∀ (entries : List (Nat × Competition)) (w : NotifWorld)
      (res : List (Nat × Competition) × NotifWorld × List NotifWorld),
      Inv entries w → updateEntries e now entries w = .ok res →
      atMostOnePer res.2.1.live ∧ ∀ wt ∈ res.2.2, atMostOnePer wt.live := by
  intro entries
  induction entries with
  | nil =>
    intro w res hinv h
    simp only [updateEntries, Except.ok.injEq] at h
    subst h
    exact ⟨hinv.amop, by simp⟩
  | cons hd rest ih =>
    obtain ⟨id, competition⟩ := hd
    intro w res hinv h
    simp only [updateEntries] at h
    have hamop1 : atMostOnePer (revokeStored competition w).live :=
      amop_of_subset (fun n hn => mem_revokeStored hn) hinv.amop
    split at h
    · exact Except.noConfusion h
    · rename_i cw heq
      split at h
      · exact Except.noConfusion h
      · rename_i rwt hrec
        simp only [Except.ok.injEq] at h
        subst h
        have hcw : cw = (competition, revokeStored competition w) ∨
            notifyStep e now competition (revokeStored competition w) = Except.ok cw := by
          by_cases hbt : competition.beginTime ≠ BeginVal.null
          · rw [if_pos hbt] at heq
            exact Or.inr heq
          · rw [if_neg hbt] at heq
            exact Or.inl (Except.ok.inj heq).symm
        have hinv2 : Inv rest cw.2 := by
          rcases hcw with hsame | hns
          · rw [hsame]
            exact Inv_revoke_rest hinv
          · rcases notifyStep_shape e now competition (revokeStored competition w) cw hns with
              hsame | ⟨nn, hid, hhh, hc1, hc2⟩
            · rw [hsame]
              exact Inv_revoke_rest hinv
            · rw [hc2, revokeStored_nextHandle]
              exact Inv_arm_rest nn hinv
                (by rw [hid]; exact hinv.idMatch (id, competition) (List.mem_cons_self _ _))
                (by rw [hhh, revokeStored_nextHandle])
        have hih := ih cw.2 rwt hinv2 hrec
        refine ⟨hih.1, ?_⟩
        intro wt hwt
        rcases List.mem_cons.mp hwt with h1 | hwt
        · rw [h1]
          exact hamop1
        · rcases List.mem_cons.mp hwt with h2 | hwt
          · rw [h2]
            exact hinv2.amop
          · exact hih.2 wt hwt

/-- With a non-positive lead time a successful `_notify` never arms. -/
theorem notifyStep_nonpos (e : Engine) (now : Int) (competition : Competition)
    (w : NotifWorld) (cw : Competition × NotifWorld) (hd : e.delay ≤ 0)
    (h : notifyStep e now competition w = .ok cw) : cw = (competition, w) := by
  unfold notifyStep at h
  split at h
  · exact Except.noConfusion h
  · rw [if_neg (fun hc => absurd hc.1 (by omega))] at h
    exact (Except.ok.inj h).symm

/-- After revoking the head entry's stored notification, every remaining
live notification is stored by one of the remaining entries. -/
theorem stored_transfer {id : Nat} {competition : Competition}
    {rest : List (Nat × Competition)} {w : NotifWorld}
    (hls : ∀ n ∈ w.live, ∃ p ∈ (id, competition) :: rest,
      (Prod.snd p).notification = some n.handle) :
    ∀ n ∈ (revokeStored competition w).live, ∃ p ∈ rest,
      (Prod.snd p).notification = some n.handle := by
  intro n hn
  cases hc : competition.notification with
  | none =>
    have hnw : n ∈ w.live := mem_revokeStored hn
    obtain ⟨p, hp, hst⟩ := hls n hnw
    rcases List.mem_cons.mp hp with hph | hpr
    · exfalso
      rw [hph] at hst
      simp only at hst
      rw [hc] at hst
      exact Option.noConfusion hst
    · exact ⟨p, hpr, hst⟩
  | some hdl =>
    obtain ⟨hnw, hne⟩ := mem_revokeStored_some hc hn
    obtain ⟨p, hp, hst⟩ := hls n hnw
    rcases List.mem_cons.mp hp with hph | hpr
    · exfalso
      rw [hph] at hst
      simp only at hst
      rw [hc] at hst
      exact hne (Option.some.inj hst).symm
    · exact ⟨p, hpr, hst⟩

/-- With a non-positive lead time, a completed reconciliation pass leaves
no live notification (given that every live notification was stored by
some entry). -/
theorem updateEntries_live_nil (e : Engine) (now : Int) (hd : e.delay ≤ 0) :
    ∀ (entries : List (Nat × Competition)) (w : NotifWorld)
      (res : List (Nat × Competition) × NotifWorld × List NotifWorld),
      (∀ n ∈ w.live, ∃ p ∈ entries, (Prod.snd p).notification = some n.handle) →
      updateEntries e now entries w = .ok res → res.2.1.live = [] := by
  intro entries
  induction entries with
  | nil =>
    intro w res hls h
    simp only [updateEntries, Except.ok.injEq] at h
    subst h
    exact List.eq_nil_iff_forall_not_mem.mpr fun n hn => by
      obtain ⟨p, hp, _⟩ := hls n hn
      simp at hp
  | cons hd' rest ih =>
    obtain ⟨id, competition⟩ := hd'
    intro w res hls h
    simp only [updateEntries] at h
    split at h
    · exact Except.noConfusion h
    · rename_i cw heq
      split at h
      · exact Except.noConfusion h
      · rename_i rwt hrec
        simp only [Except.ok.injEq] at h
        subst h
        have hcw : cw = (competition, revokeStored competition w) := by
          by_cases hbt : competition.beginTime ≠ BeginVal.null
          · rw [if_pos hbt] at heq
            exact notifyStep_nonpos e now competition _ cw hd heq
          · rw [if_neg hbt] at heq
            exact (Except.ok.inj heq).symm
        rw [hcw] at hrec
        exact ih (revokeStored competition w) rwt (stored_transfer hls) hrec

/-- `_clearAll`'s loop leaves no live notification when every live
notification was stored by some entry. -/
theorem clearAllEntries_nil :
    ∀ (entries : List (Nat × Competition)) (w : NotifWorld),
      (∀ n ∈ w.live, ∃ p ∈ entries, (Prod.snd p).notification = some n.handle) →
      (clearAllEntries entries w).live = [] := by
  intro entries
  induction entries with
  | nil =>
    intro w hls
    simp only [clearAllEntries]
    exact List.eq_nil_iff_forall_not_mem.mpr fun n hn => by
      obtain ⟨p, hp, _⟩ := hls n hn
      simp at hp
  | cons hd rest ih =>
    obtain ⟨id, competition⟩ := hd
    intro w hls
    simp only [clearAllEntries]
    exact ih (revokeStored competition w) (stored_transfer hls)

/-! ## C3: revoke-then-arm reconciliation -/

/--
C3: a successful `setParams` reconciliation pass processes each active
event by revoking its stored notification before re-arming, so that at
no intermediate moment (the returned trace records the world after each
revoke and after each re-arm) do two live notifications exist for the
same event id — given a well-formed initial state; and when the new lead
time is 0, the final state has no live notification at all (everything
revoked, nothing re-armed).
-/
theorem setParams_reconciliation (e : Engine) (p : SetParam) (now : Int) (w : NotifWorld)
    (res : Engine × NotifWorld × List NotifWorld)
    (hwf : WF e w)
    (h : (setParams e p now w).2 = .ok res) :
    atMostOnePer w.live ∧ (∀ wt ∈ res.2.2, atMostOnePer wt.live) ∧
    atMostOnePer res.2.1.live ∧
    (p.delay = JParam.number 0 → res.2.1.live = []) := by
  have hamop0 := WF_amop e w hwf
  have hinv := WF_inv e w hwf
  simp only [setParams, updateNotifications] at h
  split at h
  · exact Except.noConfusion h
  · rename_i hwt hue
    simp only [Except.ok.injEq] at h
    subst h
    have hhash : (setParamsFields e p).1.hash = e.hash := rfl
    rw [hhash] at hue
    have hmain := updateEntries_amop (setParamsFields e p).1 now e.hash w hwt hinv hue
    refine ⟨hamop0, hmain.2, hmain.1, ?_⟩
    intro hd0
    have hdel : (setParamsFields e p).1.delay = 0 := by
      simp [setParamsFields, hd0]
    refine updateEntries_live_nil (setParamsFields e p).1 now (by omega) e.hash w hwt
      ?_ hue
    intro n hn
    obtain ⟨p', hp', _, hst⟩ := hwf.2.2.1 n hn
    exact ⟨p', hp', hst⟩

/-- Witness for C3: setting the lead time to 0 on a well-formed state with
one armed notification revokes it, arms nothing, and the at-most-one
invariant holds at every traced moment. -/
theorem setParams_reconciliation_witness :
    atMostOnePer reconcilWorld.live ∧
    (∀ wt ∈ reconcilResult.2.2, atMostOnePer wt.live) ∧
    atMostOnePer reconcilResult.2.1.live ∧
    (reconcilParam.delay = JParam.number 0 → reconcilResult.2.1.live = []) :=
  setParams_reconciliation reconcilEngine reconcilParam 0 reconcilWorld reconcilResult
    (by decide) (by decide)

/-! ## C8: teardown clears everything -/

/--
C8: `teardown` (via `_clearAll`) revokes every stored notification and
deletes every record: afterwards the active-event table is empty and —
provided every live notification was stored by some record, as the state
invariant guarantees — no notification remains live.
-/
theorem teardown_clears_all (e : Engine) (w : NotifWorld)
    (hls : ∀ n ∈ w.live, ∃ p ∈ e.hash, (Prod.snd p).notification = some n.handle) :
    (teardown e w).1.hash = [] ∧ (teardown e w).2.live = [] :=
  ⟨rfl, clearAllEntries_nil e.hash w hls⟩

/-- Witness for C8: teardown with two armed notifications revokes both
and leaves the table empty. -/
theorem teardown_clears_all_witness :
    (teardown
      { rates := [3, 5], delay := 60, displayTime := 0, audio := false,
        timeCorrection := some 0,
        hash := [(1, { id := 1, ratingValue := 3, beginTime := BeginVal.num 100,
                       notification := some 0 }),
                 (2, { id := 2, ratingValue := 5, beginTime := BeginVal.num 200,
                       notification := some 1 })] }
      { nextHandle := 2,
        live := [{ handle := 0, eventId := 1,
                   opts := { title := "", body := "", icon := "", displayTime := none },
                   showDelay := 40 },
                 { handle := 1, eventId := 2,
                   opts := { title := "", body := "", icon := "", displayTime := none },
                   showDelay := 140 }] }).1.hash = [] ∧
    (teardown
      { rates := [3, 5], delay := 60, displayTime := 0, audio := false,
        timeCorrection := some 0,
        hash := [(1, { id := 1, ratingValue := 3, beginTime := BeginVal.num 100,
                       notification := some 0 }),
                 (2, { id := 2, ratingValue := 5, beginTime := BeginVal.num 200,
                       notification := some 1 })] }
      { nextHandle := 2,
        live := [{ handle := 0, eventId := 1,
                   opts := { title := "", body := "", icon := "", displayTime := none },
                   showDelay := 40 },
                 { handle := 1, eventId := 2,
                   opts := { title := "", body := "", icon := "", displayTime := none },
                   showDelay := 140 }] }).2.live = [] :=
  teardown_clears_all _ _ (by decide)

/-! ## C2: eligibility for arming -/

/--
C2: `_notify` arms a notification for an event iff the configured lead
time is positive, the event's remaining time is positive, and the
event's rating value is in the configured rates list; in particular with
a rating value outside the list nothing is armed and nothing changes,
whatever the timing.
-/
theorem notify_eligibility (e : Engine) (now : Int) (competition : Competition)
    (w : NotifWorld) (rt : Int) (comp' : Competition) (w' : NotifWorld)
    (hrt : getRemainingTime e.timeCorrection now competition.beginTime = .ok rt)
    (h : notifyStep e now competition w = .ok (comp', w')) :
    ((∃ nn, w'.live = w.live ++ [nn] ∧ nn.eventId = competition.id ∧
        comp'.notification = some nn.handle) ↔
      (0 < e.delay ∧ 0 < rt ∧ competition.ratingValue ∈ e.rates)) ∧
    (competition.ratingValue ∉ e.rates → comp' = competition ∧ w' = w) := by
  simp only [notifyStep, hrt] at h
  by_cases hc : 0 < e.delay ∧ 0 < rt ∧ competition.ratingValue ∈ e.rates
  · rw [if_pos hc] at h
    simp only [Except.ok.injEq, Prod.mk.injEq] at h
    obtain ⟨hcmp, hw⟩ := h
    subst hcmp hw
    exact ⟨⟨fun _ => hc, fun _ => ⟨_, rfl, rfl, rfl⟩⟩, fun hnr => absurd hc.2.2 hnr⟩
  · rw [if_neg hc] at h
    simp only [Except.ok.injEq, Prod.mk.injEq] at h
    obtain ⟨hcmp, hw⟩ := h
    refine ⟨⟨fun hx => absurd ?_ hc, fun hx => absurd hx hc⟩,
      fun _ => ⟨hcmp.symm, hw.symm⟩⟩
    obtain ⟨nn, hnn, _, _⟩ := hx
    rw [← hw] at hnn
    have := congrArg List.length hnn
    simp at this

/-- Witness for C2: a rating-3 competition 300 s out, rates `[3, 5]`,
lead time 60 s — armed; evaluated through the theorem at that input. -/
theorem notify_eligibility_witness :
    (∃ nn, ({ nextHandle := 1,
              live := [{ handle := 0, eventId := 1,
                         opts := { title := "Соревнование",
                                   body := "Соревнование x3 начинается",
                                   icon := "res/comp_btn.png", displayTime := none },
                         showDelay := 240 }] } : NotifWorld).live =
        ([] : List LiveNotif) ++ [nn] ∧ nn.eventId = 1 ∧
        ({ id := 1, ratingValue := 3, beginTime := BeginVal.num 300,
           notification := some 0 } : Competition).notification = some nn.handle) ↔
      (0 < (60 : Int) ∧ 0 < (300 : Int) ∧ (3 : Int) ∈ [(3 : Int), 5]) :=
  (notify_eligibility
    { rates := [3, 5], delay := 60, displayTime := 0, audio := false,
      timeCorrection := some 0, hash := [] }
    0
    { id := 1, ratingValue := 3, beginTime := BeginVal.num 300, notification := none }
    { nextHandle := 0, live := [] } 300
    { id := 1, ratingValue := 3, beginTime := BeginVal.num 300, notification := some 0 }
    { nextHandle := 1,
      live := [{ handle := 0, eventId := 1,
                 opts := { title := "Соревнование",
                           body := "Соревнование x3 начинается",
                           icon := "res/comp_btn.png", displayTime := none },
                 showDelay := 240 }] }
    (by decide) (by decide)).1

/-! ## C5: notification timing parameters -/

/--
C5: for an armed notification (lead time and remaining time positive),
the scheduled surfacing delay is `max(0, remainingTime - leadTime)` —
hence between `0` and `remainingTime` — and the display duration passed
to the host is `min(displayTime, remainingTime - showDelay)` when that
value is positive, and the host default (`undefined`) otherwise; whenever
a positive duration is forced, `duration + showDelay ≤ remainingTime`.
-/
theorem createNotification_timing (e : Engine) (competition : Competition)
    (rt : Int) (w : NotifWorld) (hd : 0 < e.delay) (hrt : 0 < rt) :
    ∃ nn, (createNotification e competition rt w).2.live = w.live ++ [nn] ∧
      nn.showDelay = max 0 (rt - e.delay) ∧
      0 ≤ nn.showDelay ∧ nn.showDelay ≤ rt ∧
      nn.opts.displayTime =
        (if 0 < min e.displayTime (rt - nn.showDelay)
         then some (min e.displayTime (rt - nn.showDelay)) else none) ∧
      (∀ d, nn.opts.displayTime = some d → d + nn.showDelay ≤ rt) := by
  refine ⟨_, rfl, ?_, ?_, ?_, ?_, ?_⟩
  · dsimp only
    rw [max_def]
    split_ifs <;> omega
  · dsimp only
    split_ifs <;> omega
  · dsimp only
    split_ifs <;> omega
  · dsimp only
    rw [min_def]
    split_ifs <;> first
      | rfl
      | (simp only [Option.some.injEq]; omega)
      | omega
  · dsimp only
    intro d
    split_ifs <;> intro hdt <;> simp only [Option.some.injEq] at hdt <;> omega

/-- Witness for C5: lead time 60, display duration 0, start in 300 s —
surfacing delay 240 s, duration left as host default. -/
theorem createNotification_timing_witness :
    ∃ nn, (createNotification
        { rates := [3, 5], delay := 60, displayTime := 0, audio := false,
          timeCorrection := some 0, hash := [] }
        { id := 1, ratingValue := 3, beginTime := BeginVal.num 300, notification := none }
        300 { nextHandle := 0, live := [] }).2.live = [] ++ [nn] ∧
      nn.showDelay = max 0 (300 - 60) ∧
      0 ≤ nn.showDelay ∧ nn.showDelay ≤ 300 ∧
      nn.opts.displayTime =
        (if 0 < min (0 : Int) (300 - nn.showDelay)
         then some (min (0 : Int) (300 - nn.showDelay)) else none) ∧
      (∀ d, nn.opts.displayTime = some d → d + nn.showDelay ≤ 300) :=
  createNotification_timing
    { rates := [3, 5], delay := 60, displayTime := 0, audio := false,
      timeCorrection := some 0, hash := [] }
    { id := 1, ratingValue := 3, beginTime := BeginVal.num 300, notification := none }
    300 { nextHandle := 0, live := [] } (by decide) (by decide)

/-! ## C7: error behaviour of getRemainingTime -/

/--
C7 counterexample: the claim demands a type error for a string that is
not parseable, but for such a string (`new Date(s).getTime()` is `NaN`)
the code takes the string branch, `beginTimestamp` is not `undefined`,
no error is signalled, and with the correction established the `NaN`
comparison makes the method return `0`.
-/
theorem remainingTime_unparseable_no_error :
    getRemainingTime (some 0) 0 (BeginVal.str none) = .ok 0 ∧
    getRemainingTime (some 0) 0 (BeginVal.str none) ≠ .error .typeError := by
  constructor
  · rfl
  · intro h
    cases h

/--
C7 amended: `getRemainingTime` signals a type error iff the start-time
value is neither a string nor a number (parseability is not checked), and
a state error iff the value is a string or a number but the clock
correction has not been established. (The method reads but never writes
the engine state, which the embedding reflects by giving it no state to
return.)
-/
theorem remainingTime_error_characterization (tc : Option Int) (now : Int) (bt : BeginVal) :
    (getRemainingTime tc now bt = .error .typeError ↔
      (bt = BeginVal.null ∨ bt = BeginVal.other)) ∧
    (getRemainingTime tc now bt = .error .stateError ↔
      (tc = none ∧ ((∃ p, bt = BeginVal.str p) ∨ ∃ n, bt = BeginVal.num n))) := by
  rcases bt with p | m | _ | _ <;> rcases tc with _ | c <;>
    simp [getRemainingTime, toBeginTimestamp]
  all_goals rcases p with _ | ts <;> simp

/-- Witness for C7 amended at `tc = none`, `bt = num 5`: a state error. -/
theorem remainingTime_error_characterization_witness :
    getRemainingTime none 7 (BeginVal.num 5) = .error .stateError :=
  (remainingTime_error_characterization none 7 (BeginVal.num 5)).2.mpr
    ⟨rfl, Or.inr ⟨5, rfl⟩⟩

/-! ## C9: pre-display suppression check -/

/--
C9: the pre-display check resolves with `true` exactly when no open view
targets the competition page; the audio cue plays iff the audio setting
is on and no open view targets it; and when some open view targets it,
the audio is suppressed regardless of the setting while the check still
resolves (with `false` — the visual display is decided by the
notification framework from that value, never blocked by the hook
itself).
-/
theorem beforeHook_audio_suppression (audio : Bool) (tabs : List TabInfo) :
    ((beforeHook audio tabs).resolved = true ↔
      ∀ t ∈ tabs, ¬(t.hasTab = true ∧ t.matchesEvent = true)) ∧
    ((beforeHook audio tabs).audioPlayed = true ↔
      (audio = true ∧ ∀ t ∈ tabs, ¬(t.hasTab = true ∧ t.matchesEvent = true))) ∧
    ((∃ t ∈ tabs, t.hasTab = true ∧ t.matchesEvent = true) →
      (beforeHook audio tabs).audioPlayed = false ∧
      (beforeHook audio tabs).resolved = false) := by
  refine ⟨?_, ?_, ?_⟩
  · simp [beforeHook, List.any_eq_true]
  · simp [beforeHook, List.any_eq_true]
    tauto
  · intro hex
    have hf : tabs.any (fun tab => tab.hasTab && tab.matchesEvent) = true := by
      rcases hex with ⟨t, ht, h1, h2⟩
      simp only [List.any_eq_true]
      exact ⟨t, ht, by simp [h1, h2]⟩
    simp [beforeHook, hf]

/-- Witness for C9: one open tab showing the competition page suppresses
the audio even though the audio setting is on, and the check resolves
with `false`. -/
theorem beforeHook_audio_suppression_witness :
    (beforeHook true [{ hasTab := true, matchesEvent := true }]).audioPlayed = false ∧
    (beforeHook true [{ hasTab := true, matchesEvent := true }]).resolved = false :=
  (beforeHook_audio_suppression true [{ hasTab := true, matchesEvent := true }]).2.2
    ⟨{ hasTab := true, matchesEvent := true }, by decide⟩

/-! ## C10: setParams parameter validation and persistence -/

/--
C10: a `delay` or `displayTime` parameter that is absent, not a number,
or negative leaves the corresponding field unchanged, while a
non-negative number is taken; a falsy `rates` and an `undefined`/`null`
`audio` leave those fields unchanged, a present `audio` is stored as its
boolean coercion; the hash and the time correction are untouched; and
the four resulting configuration values are written to storage (in
source order) on every call.
-/
theorem setParams_param_validation (e : Engine) (p : SetParam) :
    ((p.delay = JParam.undef ∨ p.delay = JParam.nonNumber) →
      (setParamsFields e p).1.delay = e.delay) ∧
    (∀ n, p.delay = JParam.number n → n < 0 → (setParamsFields e p).1.delay = e.delay) ∧
    (∀ n, p.delay = JParam.number n → 0 ≤ n → (setParamsFields e p).1.delay = n) ∧
    ((p.displayTime = JParam.undef ∨ p.displayTime = JParam.nonNumber) →
      (setParamsFields e p).1.displayTime = e.displayTime) ∧
    (∀ n, p.displayTime = JParam.number n → n < 0 →
      (setParamsFields e p).1.displayTime = e.displayTime) ∧
    (∀ n, p.displayTime = JParam.number n → 0 ≤ n →
      (setParamsFields e p).1.displayTime = n) ∧
    (p.rates = none → (setParamsFields e p).1.rates = e.rates) ∧
    (∀ r, p.rates = some r → (setParamsFields e p).1.rates = r) ∧
    (p.audio = none → (setParamsFields e p).1.audio = e.audio) ∧
    (∀ b, p.audio = some b → (setParamsFields e p).1.audio = b) ∧
    (setParamsFields e p).1.hash = e.hash ∧
    (setParamsFields e p).1.timeCorrection = e.timeCorrection ∧
    (setParamsFields e p).2 =
      [("competition_delay", StoredVal.num (setParamsFields e p).1.delay),
       ("competition_rates", StoredVal.list (setParamsFields e p).1.rates),
       ("competition_displayTime", StoredVal.num (setParamsFields e p).1.displayTime),
       ("competition_audio", StoredVal.bool (setParamsFields e p).1.audio)] := by
  refine ⟨?_, ?_, ?_, ?_, ?_, ?_, ?_, ?_, ?_, ?_, ?_, ?_, ?_⟩
  · rintro (h | h) <;> simp [setParamsFields, h]
  · intro n hn hneg
    simp [setParamsFields, hn, show ¬ (0:Int) ≤ n by omega]
  · intro n hn hpos
    simp [setParamsFields, hn, hpos]
  · rintro (h | h) <;> simp [setParamsFields, h]
  · intro n hn hneg
    simp [setParamsFields, hn, show ¬ (0:Int) ≤ n by omega]
  · intro n hn hpos
    simp [setParamsFields, hn, hpos]
  · intro h
    simp [setParamsFields, h]
  · intro r h
    simp [setParamsFields, h]
  · intro h
    simp [setParamsFields, h]
  · intro b h
    simp [setParamsFields, h]
  · simp [setParamsFields]
  · simp [setParamsFields]
  · simp [setParamsFields]

/-- Witness for C10: a negative `delay`, a non-number `displayTime`, an
absent `rates` and a present truthy `audio` against a concrete engine. -/
theorem setParams_param_validation_witness :
    (setParamsFields
      { rates := [3, 5], delay := 60, displayTime := 0, audio := false,
        timeCorrection := some 0, hash := [] }
      { rates := none, audio := some true, displayTime := JParam.nonNumber,
        delay := JParam.number (-1) }).1.delay = 60 ∧
    (setParamsFields
      { rates := [3, 5], delay := 60, displayTime := 0, audio := false,
        timeCorrection := some 0, hash := [] }
      { rates := none, audio := some true, displayTime := JParam.nonNumber,
        delay := JParam.number (-1) }).1.displayTime = 0 ∧
    (setParamsFields
      { rates := [3, 5], delay := 60, displayTime := 0, audio := false,
        timeCorrection := some 0, hash := [] }
      { rates := none, audio := some true, displayTime := JParam.nonNumber,
        delay := JParam.number (-1) }).1.audio = true := by
  have h := setParams_param_validation
    { rates := [3, 5], delay := 60, displayTime := 0, audio := false,
      timeCorrection := some 0, hash := [] }
    { rates := none, audio := some true, displayTime := JParam.nonNumber,
      delay := JParam.number (-1) }
  exact ⟨h.2.1 (-1) rfl (by omega), h.2.2.2.1 (Or.inr rfl),
    h.2.2.2.2.2.2.2.2.2.1 true rfl⟩

/-! ## C4: selective prune -/

/--
C4 counterexample: with correction 600 ms at local time 0, an event whose
start instant is 1000 ms — strictly in the future, since now + correction
= 600 < 1000 — is nevertheless removed by `_clearStarted`, because its
rounded remaining time (400 ms) is already 0.
-/
theorem clearStarted_removes_future_event :
    clearStarted
        { rates := [3, 5], delay := 60, displayTime := 0, audio := false,
          timeCorrection := some 600,
          hash := [(7, { id := 7, ratingValue := 3, beginTime := BeginVal.num 1,
                         notification := none })] } 0
        { nextHandle := 0, live := [] } =
      .ok ({ rates := [3, 5], delay := 60, displayTime := 0, audio := false,
             timeCorrection := some 600, hash := [] },
           { nextHandle := 0, live := [] }) ∧
    (0 : Int) + 600 < 1 * 1000 := by
  decide

theorem clearStartedEntries_filter (tc : Option Int) (now : Int) :
    ∀ (entries : List (Nat × Competition)) (res : List (Nat × Competition)),
      clearStartedEntries tc now entries = .ok res →
      res = entries.filter (keepEntry tc now) := by
  intro entries
  induction entries with
  | nil =>
    intro res h
    simp only [clearStartedEntries, Except.ok.injEq] at h
    simp [← h]
  | cons hd rest ih =>
    obtain ⟨id, competition⟩ := hd
    intro res h
    simp only [clearStartedEntries] at h
    by_cases hbt : competition.beginTime = BeginVal.null
    · rw [if_pos hbt] at h
      split at h
      · exact Except.noConfusion h
      · rename_i rest' hrec
        simp only [Except.ok.injEq] at h
        subst h
        have hk : keepEntry tc now (id, competition) = true := by
          simp [keepEntry, hbt]
        simp [List.filter_cons, hk, ih rest' hrec]
    · rw [if_neg hbt] at h
      split at h
      · exact Except.noConfusion h
      · rename_i rt hrt
        by_cases hz : rt = 0
        · rw [if_pos hz] at h
          have hk : keepEntry tc now (id, competition) = false := by
            simp [keepEntry, hbt, hrt, hz]
          simp [List.filter_cons, hk]
          exact ih res h
        · rw [if_neg hz] at h
          split at h
          · exact Except.noConfusion h
          · rename_i rest' hrec
            simp only [Except.ok.injEq] at h
            subst h
            have hk : keepEntry tc now (id, competition) = true := by
              simp [keepEntry, hbt, hrt, hz]
            simp [List.filter_cons, hk, ih rest' hrec]

/--
C4 amended: a successful `_clearStarted` removes exactly those entries
whose `beginTime` is non-null and whose rounded remaining time is 0 —
for a parsed start instant `ts`, that is `ts < now + correction + 500`
(within half a second of starting, possibly still in the future; an
unparseable string also counts as remaining 0) — keeps all others,
revokes nothing (the notification world and every other engine field are
unchanged).
-/
theorem clearStarted_characterization (e : Engine) (now : Int) (w : NotifWorld)
    (res : Engine × NotifWorld)
    (h : clearStarted e now w = .ok res) :
    res.1.hash = e.hash.filter (keepEntry e.timeCorrection now) ∧
    res.2 = w ∧
    res.1.rates = e.rates ∧ res.1.delay = e.delay ∧
    res.1.displayTime = e.displayTime ∧ res.1.audio = e.audio ∧
    res.1.timeCorrection = e.timeCorrection ∧
    (∀ corr ts, getRemainingTime (some corr) now (BeginVal.str (some ts)) = .ok 0 ↔
      ts < now + corr + 500) ∧
    (∀ corr n, getRemainingTime (some corr) now (BeginVal.num n) = .ok 0 ↔
      n * 1000 < now + corr + 500) := by
  unfold clearStarted at h
  split at h
  · exact Except.noConfusion h
  · rename_i hash' hrec
    simp only [Except.ok.injEq] at h
    subst h
    refine ⟨clearStartedEntries_filter e.timeCorrection now e.hash hash' hrec,
      rfl, rfl, rfl, rfl, rfl, rfl, ?_, ?_⟩
    · intro corr ts
      simp only [getRemainingTime, toBeginTimestamp, Except.ok.injEq]
      split_ifs <;> omega
    · intro corr n
      simp only [getRemainingTime, toBeginTimestamp, Except.ok.injEq]
      split_ifs <;> omega

/-- Witness for C4 amended: one future event kept, one started event
removed, world untouched. -/
theorem clearStarted_characterization_witness :
    pruneResult.1.hash = pruneEngine.hash.filter (keepEntry pruneEngine.timeCorrection 0) ∧
    pruneResult.2 = pruneWorld ∧
    pruneResult.1.rates = pruneEngine.rates ∧ pruneResult.1.delay = pruneEngine.delay ∧
    pruneResult.1.displayTime = pruneEngine.displayTime ∧
    pruneResult.1.audio = pruneEngine.audio ∧
    pruneResult.1.timeCorrection = pruneEngine.timeCorrection ∧
    (∀ corr ts, getRemainingTime (some corr) 0 (BeginVal.str (some ts)) = .ok 0 ↔
      ts < 0 + corr + 500) ∧
    (∀ corr n, getRemainingTime (some corr) 0 (BeginVal.num n) = .ok 0 ↔
      n * 1000 < 0 + corr + 500) :=
  clearStarted_characterization pruneEngine 0 pruneWorld pruneResult (by decide)

/-! ## C6: notification references -/

/--
C6 counterexample: after a reconciliation that leaves the event
ineligible (lead time set to 0), the armed notification is revoked — no
notification is live — yet the event record still holds the reference to
the revoked handle 2: the code never clears `competition.notification`,
so a record can retain a reference to a notification that is neither
scheduled nor displayed.
-/
theorem notification_reference_stale :
    (setParams staleEngine staleParam 0 staleWorld).2 = .ok staleResult ∧
    staleResult.2.1.live = [] ∧
    (∃ p ∈ staleResult.1.hash, (Prod.snd p).notification = some 2) := by
  decide

/--
C6 amended: an event record acquires a (new) notification reference only
through `_notify`, which requires a positive lead time, an eligible
rating value, a non-null (string or numeric) start time and a positive
remaining time, and stores exactly the freshly created live
notification's handle; however, the reference is not cleared on
revocation, so it may outlive the notification (see the counterexample).
-/
theorem notification_reference_origin (e : Engine) (now : Int)
    (competition : Competition) (w : NotifWorld) (cw : Competition × NotifWorld)
    (h : notifyStep e now competition w = .ok cw)
    (hch : cw.1.notification ≠ competition.notification) :
    0 < e.delay ∧ competition.ratingValue ∈ e.rates ∧
    competition.beginTime ≠ BeginVal.null ∧ competition.beginTime ≠ BeginVal.other ∧
    (∃ rt, getRemainingTime e.timeCorrection now competition.beginTime = .ok rt ∧
      0 < rt) ∧
    cw.1.notification = some w.nextHandle ∧
    (∃ nn, cw.2.live = w.live ++ [nn] ∧ nn.handle = w.nextHandle ∧
      nn.eventId = competition.id) := by
  unfold notifyStep at h
  split at h
  · exact Except.noConfusion h
  · rename_i rt hrt
    split at h
    · rename_i hcond
      simp only [Except.ok.injEq] at h
      subst h
      refine ⟨hcond.1, hcond.2.2, ?_, ?_, ⟨rt, hrt, hcond.2.1⟩, rfl, ⟨_, rfl, rfl, rfl⟩⟩
      · intro hbt
        rw [hbt] at hrt
        simp [getRemainingTime, toBeginTimestamp] at hrt
      · intro hbt
        rw [hbt] at hrt
        simp [getRemainingTime, toBeginTimestamp] at hrt
    · simp only [Except.ok.injEq] at h
      subst h
      exact absurd rfl hch

/-- Witness for C6 amended: the arming of a rating-3 competition 300 s
out, with its concrete `_notify` result. -/
theorem notification_reference_origin_witness :
    0 < (60 : Int) ∧ (3 : Int) ∈ [(3 : Int), 5] ∧
    BeginVal.num 300 ≠ BeginVal.null ∧ BeginVal.num 300 ≠ BeginVal.other ∧
    (∃ rt, getRemainingTime (some 0) 0 (BeginVal.num 300) = .ok rt ∧ 0 < rt) ∧
    ({ id := 1, ratingValue := 3, beginTime := BeginVal.num 300,
       notification := some 0 } : Competition).notification = some 0 ∧
    (∃ nn, ({ nextHandle := 1,
              live := [{ handle := 0, eventId := 1,
                         opts := { title := "Соревнование",
                                   body := "Соревнование x3 начинается",
                                   icon := "res/comp_btn.png", displayTime := none },
                         showDelay := 240 }] } : NotifWorld).live =
        ([] : List LiveNotif) ++ [nn] ∧ nn.handle = 0 ∧ nn.eventId = 1) :=
  notification_reference_origin
    { rates := [3, 5], delay := 60, displayTime := 0, audio := false,
      timeCorrection := some 0, hash := [] }
    0
    { id := 1, ratingValue := 3, beginTime := BeginVal.num 300, notification := none }
    { nextHandle := 0, live := [] }
    ({ id := 1, ratingValue := 3, beginTime := BeginVal.num 300, notification := some 0 },
     { nextHandle := 1,
       live := [{ handle := 0, eventId := 1,
                  opts := { title := "Соревнование",
                            body := "Соревнование x3 начинается",
                            icon := "res/comp_btn.png", displayTime := none },
                  showDelay := 240 }] })
    (by decide) (by decide)

end Klavotools
